import Mathlib

/-!
Shallow embedding of `rpi_plc/plc.py`: the `MemoryVariable` dual-state value
holder and the `AbstractPLC` scan-cycle engine.  External collaborators
(GPIO bindings from `rpi_plc.gpio`, the e-mail notifier, the user-supplied
control / exit / emergency routines, and the asynchronous SIGTSTP stop
signal) are modelled as oracle functions collected in an `Env`.  The engine
itself (`update_registries`, `read_inputs`, `write_outputs`,
`int_com_error_handler`, `run`) is translated statement by statement from
the source; observable actions are recorded in a trace of `Event`s.
-/

/-- Payload of a `MemoryVariable` (`bool | int | float` in the source).
Floating-point values are modelled as exact rationals; no claim below
depends on rounding behaviour. -/
inductive Val
  | vBool (b : Bool)
  | vInt (n : Int)
  | vFloat (q : ℚ)
deriving DecidableEq, Repr

/-- Python truthiness of a payload value (`if value:`). -/
def Val.truthy : Val → Bool
  | .vBool b => b
  | .vInt n => n != 0
  | .vFloat q => q != 0

/-- The `MemoryVariable` dataclass: current and previous state, the
single-bit flag and the decimal precision, with the source's defaults. -/
structure MemoryVariable where
  curr_state : Val := Val.vInt 0
  prev_state : Val := Val.vInt 0
  single_bit : Bool := true
  decimal_precision : Nat := 3
deriving DecidableEq, Repr

/-- `MemoryVariable.update`: store the preceding current state in
`prev_state`, then assign `value` to `curr_state`. -/
def MemoryVariable.update (m : MemoryVariable) (value : Val) : MemoryVariable :=
  { m with prev_state := m.curr_state, curr_state := value }

/-- `MemoryVariable.active`: `True` iff the current state is truthy. -/
def MemoryVariable.active (m : MemoryVariable) : Bool :=
  m.curr_state.truthy

/-- Error raised by the bit-only operations on a non-single-bit variable:
a Python `ValueError` in the source, the TypeMismatch error kind of the
spec's taxonomy. -/
inductive MVError
  | typeMismatch (msg : String)
deriving DecidableEq, Repr

def singleBitMsg : String := "Memory variable is not single bit."

/-- `MemoryVariable.activate`: `update(1)` for single-bit variables, else a
`ValueError` (the variable is left unchanged, since the source raises
before any mutation). -/
def MemoryVariable.activate (m : MemoryVariable) : Except MVError MemoryVariable :=
  if m.single_bit then .ok (m.update (Val.vInt 1))
  else .error (.typeMismatch singleBitMsg)

/-- `MemoryVariable.deactivate`: `update(0)` for single-bit variables, else
a `ValueError` (the variable is left unchanged). -/
def MemoryVariable.deactivate (m : MemoryVariable) : Except MVError MemoryVariable :=
  if m.single_bit then .ok (m.update (Val.vInt 0))
  else .error (.typeMismatch singleBitMsg)

/-- The `raising_edge` property (the spec calls it `rising_edge`):
`curr_state` truthy and `prev_state` falsy, only for single-bit variables. -/
def MemoryVariable.raising_edge (m : MemoryVariable) : Except MVError Bool :=
  if m.single_bit then .ok (m.curr_state.truthy && !m.prev_state.truthy)
  else .error (.typeMismatch singleBitMsg)

/-- The `falling_edge` property: `prev_state` truthy and `curr_state`
falsy, only for single-bit variables. -/
def MemoryVariable.falling_edge (m : MemoryVariable) : Except MVError Bool :=
  if m.single_bit then .ok (m.prev_state.truthy && !m.curr_state.truthy)
  else .error (.typeMismatch singleBitMsg)

/-- A memory registry (`dict[str, MemoryVariable]`), as an insertion-ordered
association list, matching Python dict iteration order. -/
abbrev Registry := List (String × MemoryVariable)

def lookupMV : Registry → String → Option MemoryVariable
  | [], _ => none
  | (k, m) :: rest, l => if k = l then some m else lookupMV rest l

/-- Python dict assignment `reg[l] = m`: replace in place, or append. -/
def insertMV : Registry → String → MemoryVariable → Registry
  | [], l, m => [(l, m)]
  | (k, v) :: rest, l, m =>
      if k = l then (k, m) :: rest else (k, v) :: insertMV rest l m

/-- Key insertion for the `_inputs` / `_outputs` dicts.  Only the ordered
key list is modelled: the binding objects themselves are external
collaborators represented by `Env` oracles. -/
def insertKey (ks : List String) (l : String) : List String :=
  if l ∈ ks then ks else ks ++ [l]

/-- The mutable state of an `AbstractPLC` instance: the keys of the
`_inputs` / `_outputs` binding dicts, the three memory registries, and the
`_exit` flag set by the SIGTSTP handler. -/
structure AbstractPLC where
  inputs : List String := []
  outputs : List String := []
  input_registry : Registry := []
  output_registry : Registry := []
  step_registry : Registry := []
  exitFlag : Bool := false
deriving DecidableEq, Repr

/-- The freshly constructed PLC (`__init__`): empty dicts, `_exit = False`. -/
def emptyPLC : AbstractPLC := {}

/-- `add_digital_input`: NC contact gives initial snapshot value 1 (and
active-low polarity on the binding, which lives outside the engine), NO
contact gives 0; the registry entry starts with
`curr_state = prev_state = init` and default `single_bit = true`. -/
def AbstractPLC.add_digital_input (s : AbstractPLC) (label : String)
    (NC_contact : Bool) : AbstractPLC × MemoryVariable :=
  let init : Val := if NC_contact then Val.vInt 1 else Val.vInt 0
  let mv : MemoryVariable := { curr_state := init, prev_state := init }
  ({ s with inputs := insertKey s.inputs label,
            input_registry := insertMV s.input_registry label mv }, mv)

/-- `add_digital_output`: output-side variable starts at
`curr_state = prev_state = init_value`; the read-back status variable
`<label>_status` is `MemoryVariable()` with all defaults. -/
def AbstractPLC.add_digital_output (s : AbstractPLC) (label : String)
    (init_value : Val) : AbstractPLC × MemoryVariable × MemoryVariable :=
  let outMv : MemoryVariable :=
    { curr_state := init_value, prev_state := init_value }
  let stMv : MemoryVariable := {}
  ({ s with outputs := insertKey s.outputs label,
            output_registry := insertMV s.output_registry label outMv,
            input_registry := insertMV s.input_registry (label ++ "_status") stMv },
   outMv, stMv)

/-- `add_pwm_output`: both variables are created with `single_bit = False`;
the frame/pulse-width/value-range parameters configure only the external
binding and do not reach the registries. -/
def AbstractPLC.add_pwm_output (s : AbstractPLC) (label : String)
    (init_value : Val) (decimal_precision : Nat) :
    AbstractPLC × MemoryVariable × MemoryVariable :=
  let outMv : MemoryVariable :=
    { curr_state := init_value, prev_state := init_value, single_bit := false }
  let stMv : MemoryVariable :=
    { single_bit := false, decimal_precision := decimal_precision }
  ({ s with outputs := insertKey s.outputs label,
            output_registry := insertMV s.output_registry label outMv,
            input_registry := insertMV s.input_registry (label ++ "_status") stMv },
   outMv, stMv)

/-- `add_step`: a step marker with `curr_state = prev_state = init_value`
and no hardware binding. -/
def AbstractPLC.add_step (s : AbstractPLC) (label : String)
    (init_value : Val) : AbstractPLC × MemoryVariable :=
  let step : MemoryVariable := { curr_state := init_value, prev_state := init_value }
  ({ s with step_registry := insertMV s.step_registry label step }, step)

/-- Exceptions that can escape engine code during `run`. -/
inductive PyExc
  | systemExit (msg : String)
  | notifyFailed
  | keyError (k : String)
deriving DecidableEq, Repr

/-- Observable engine events, in execution order. -/
inductive Event
  | advance
  | readPhase
  | controlStart
  | writePhase
  | bindingWrite (label : String) (v : Val)
  | emergencyRoutine
  | exitRoutine
  | logError (msg : String)
  | notifySend (msg : String)
deriving DecidableEq, Repr

/-- External collaborators as oracles: binding reads and read-backs
(`Except` error carries the `InternalCommunicationError` description),
binding write results (`some desc` = communication failure), the user
control routine (returning the mutated PLC state and whether it raised
`EmergencyException`), the stop signal, and the notifier configuration
(`none`: no notifier; `some b`: notifier present, `send` succeeds iff `b`). -/
structure Env where
  readIn : Nat → String → Except String Val
  readStatus : Nat → String → Except String Val
  writeRes : Nat → String → Val → Option String
  control : Nat → AbstractPLC → AbstractPLC × Bool
  stopDuring : Nat → Bool
  notifyCfg : Option Bool

/-- `int_com_error_handler`: log the message at error level, send a
notification if the notifier is configured, then `sys.exit(msg)`.  When the
notifier's `send` raises, the `sys.exit` statement is never reached and the
notifier's exception propagates instead. -/
def int_com_error_handler (cfg : Option Bool) (description : String) :
    List Event × PyExc :=
  let msg := "program interrupted: " ++ description
  match cfg with
  | none => ([.logError msg], .systemExit msg)
  | some true => ([.logError msg, .notifySend msg], .systemExit msg)
  | some false => ([.logError msg, .notifySend msg], .notifyFailed)

/-- One pass of `update_registries` over a registry:
`mv.update(mv.curr_state)` for every entry. -/
def advanceReg : Registry → Registry
  | [] => []
  | (k, m) :: rest => (k, m.update m.curr_state) :: advanceReg rest

/-- `update_registries`: advance every step and every output variable;
inputs are untouched. -/
def AbstractPLC.update_registries (s : AbstractPLC) : AbstractPLC :=
  { s with step_registry := advanceReg s.step_registry,
           output_registry := advanceReg s.output_registry }

/-- First loop of `read_inputs`: for each digital input in insertion order,
`input_registry[label].update(binding.read())`.  A missing registry key is
an uncaught `KeyError`; a failed read is routed to
`int_com_error_handler`. -/
def readPassIn (env : Env) (n : Nat) :
    List String → Registry → Registry × List Event × Option PyExc
  | [], reg => (reg, [], none)
  | l :: rest, reg =>
    match lookupMV reg l with
    | none => (reg, [], some (.keyError l))
    | some mv =>
      match env.readIn n l with
      | .ok v => readPassIn env n rest (insertMV reg l (mv.update v))
      | .error d =>
        let h := int_com_error_handler env.notifyCfg d
        (reg, h.1, some h.2)

/-- Second loop of `read_inputs`: for each output in insertion order,
`input_registry[label ++ "_status"].update(binding.read())`. -/
def readPassStatus (env : Env) (n : Nat) :
    List String → Registry → Registry × List Event × Option PyExc
  | [], reg => (reg, [], none)
  | l :: rest, reg =>
    match lookupMV reg (l ++ "_status") with
    | none => (reg, [], some (.keyError (l ++ "_status")))
    | some mv =>
      match env.readStatus n l with
      | .ok v => readPassStatus env n rest (insertMV reg (l ++ "_status") (mv.update v))
      | .error d =>
        let h := int_com_error_handler env.notifyCfg d
        (reg, h.1, some h.2)

/-- `read_inputs`: both passes; a communication failure in the first pass
aborts the second.  The exception (if any) propagates to the caller. -/
def read_inputs (env : Env) (n : Nat) (s : AbstractPLC) :
    AbstractPLC × List Event × Option PyExc :=
  match readPassIn env n s.inputs s.input_registry with
  | (reg1, evs1, some e) =>
      ({ s with input_registry := reg1 }, .readPhase :: evs1, some e)
  | (reg1, evs1, none) =>
      match readPassStatus env n s.outputs reg1 with
      | (reg2, evs2, exc2) =>
          ({ s with input_registry := reg2 }, .readPhase :: (evs1 ++ evs2), exc2)

/-- Loop of `write_outputs`: for each output in insertion order,
`binding.write(output_registry[label].curr_state)`.  A missing registry key
is an uncaught `KeyError` (raised before the write); a failed write is
routed to `int_com_error_handler` and aborts the remaining writes. -/
def writeOutputsGo (env : Env) (n : Nat) (reg : Registry) :
    List String → List Event × Option PyExc
  | [] => ([], none)
  | l :: rest =>
    match lookupMV reg l with
    | none => ([], some (.keyError l))
    | some mv =>
      match env.writeRes n l mv.curr_state with
      | none =>
        let r := writeOutputsGo env n reg rest
        (.bindingWrite l mv.curr_state :: r.1, r.2)
      | some d =>
        let h := int_com_error_handler env.notifyCfg d
        (.bindingWrite l mv.curr_state :: h.1, some h.2)

/-- `write_outputs`: the output phase.  Returns its event trace and the
exception that escapes it, if any. -/
def write_outputs (env : Env) (n : Nat) (s : AbstractPLC) :
    List Event × Option PyExc :=
  let r := writeOutputsGo env n s.output_registry s.outputs
  (.writePhase :: r.1, r.2)

/-- Result of one iteration of the `while` body of `run`: fall through to
the next loop-head check, `return` (taken after `emergency_routine`), or an
exception propagating out of `run`. -/
inductive BodyRes
  | cont
  | ret
  | raised (e : PyExc)
deriving DecidableEq, Repr

/-- One iteration of the `while` body of `run`, including the `finally`
clause: `update_registries`; `read_inputs`; `control_routine`; on
`EmergencyException` run `emergency_routine` and `return`; in all cases the
`finally` clause runs `write_outputs` (whose own exception, if any,
replaces the pending one). -/
def cycleBody (env : Env) (n : Nat) (s : AbstractPLC) :
    List Event × AbstractPLC × BodyRes :=
  let s1 := s.update_registries
  match read_inputs env n s1 with
  | (s2, rEvs, some e) =>
    let w := write_outputs env n s2
    (.advance :: (rEvs ++ w.1), s2,
      .raised (match w.2 with | some e2 => e2 | none => e))
  | (s2, rEvs, none) =>
    let c := env.control n s2
    let w := write_outputs env n c.1
    if c.2 then
      (.advance :: (rEvs ++ (.controlStart :: .emergencyRoutine :: w.1)), c.1,
        match w.2 with | some e2 => .raised e2 | none => .ret)
    else
      (.advance :: (rEvs ++ (.controlStart :: w.1)), c.1,
        match w.2 with | some e2 => .raised e2 | none => .cont)

/-- `exit_handler`: the SIGTSTP handler sets `_exit`. -/
def exit_handler (s : AbstractPLC) : AbstractPLC :=
  { s with exitFlag := true }

/-- Result of `run`: normal return, an escaping exception, or out of fuel
(the loop is still running). -/
inductive Outcome
  | normal
  | exc (e : PyExc)
  | fuelOut
deriving DecidableEq, Repr

/-- The `run` loop with explicit fuel.  At each loop head, if `_exit` is
set the `while`'s `else` clause runs `exit_routine` then `write_outputs`
and `run` returns.  Otherwise one body iteration runs; a stop signal
arriving during cycle `n` (`env.stopDuring n`) invokes `exit_handler` and
is observed at the next loop-head check.  `BodyRes.ret` (the emergency
path's `return`) skips the `else` clause. -/
def runAux (env : Env) : Nat → Nat → AbstractPLC → List Event × AbstractPLC × Outcome
  | 0, _, s => ([], s, .fuelOut)
  | fuel + 1, n, s =>
    if s.exitFlag then
      let w := write_outputs env n s
      (.exitRoutine :: w.1, s,
        match w.2 with | some e => .exc e | none => .normal)
    else
      match cycleBody env n s with
      | (evs, s1, br) =>
        let s2 := if env.stopDuring n then exit_handler s1 else s1
        match br with
        | .cont =>
          match runAux env fuel (n + 1) s2 with
          | (evs2, s3, o) => (evs ++ evs2, s3, o)
        | .ret => (evs, s2, .normal)
        | .raised e => (evs, s2, .exc e)

/-- `run`: the scan loop from cycle 0. -/
def run (env : Env) (fuel : Nat) (s : AbstractPLC) :
    List Event × AbstractPLC × Outcome :=
  runAux env fuel 0 s

/-- Number of occurrences of an event in a trace. -/
def countEv (e : Event) : List Event → Nat
  | [] => 0
  | x :: r => (if x = e then 1 else 0) + countEv e r

/-- The trace suffix strictly after the first occurrence of `e`, if any. -/
def afterEv (e : Event) : List Event → Option (List Event)
  | [] => none
  | x :: r => if x = e then some r else afterEv e r

/-- Well-formedness maintained by the registration API: every output label
has an entry in the output registry (so `write_outputs` cannot hit a
`KeyError`). -/
def wfOutputs (p : AbstractPLC) : Bool :=
  p.outputs.all fun l => (lookupMV p.output_registry l).isSome

/-! ### Registry lemmas -/

theorem lookupMV_insertMV (reg : Registry) (l k : String) (m : MemoryVariable) :
    lookupMV (insertMV reg l m) k = if l = k then some m else lookupMV reg k := by
  induction reg with
  | nil => simp [insertMV, lookupMV]
  | cons p rest ih =>
    obtain ⟨pk, pm⟩ := p
    by_cases h1 : pk = l
    · by_cases h2 : pk = k
      · simp [insertMV, lookupMV, h1, h2, h1.symm.trans h2]
      · have hlk : ¬l = k := fun hc => h2 (h1.trans hc)
        simp [insertMV, lookupMV, h1, h2, hlk]
    · by_cases h2 : pk = k
      · have hlk : ¬l = k := fun hc => h1 (h2.trans hc.symm)
        have hkl : ¬k = l := fun hc => h1 (h2.trans hc)
        simp [insertMV, lookupMV, h1, h2, hlk, hkl]
      · simp [insertMV, lookupMV, h1, h2, ih]

theorem lookupMV_advanceReg (reg : Registry) (l : String) :
    lookupMV (advanceReg reg) l
      = (lookupMV reg l).map fun m => m.update m.curr_state := by
  induction reg with
  | nil => simp [advanceReg, lookupMV]
  | cons p rest ih =>
    obtain ⟨pk, pm⟩ := p
    by_cases h : pk = l <;> simp [advanceReg, lookupMV, h, ih]

theorem advanceReg_advanceReg (reg : Registry) :
    advanceReg (advanceReg reg) = advanceReg reg := by
  induction reg with
  | nil => rfl
  | cons p rest ih =>
    obtain ⟨pk, pm⟩ := p
    simp [advanceReg, ih, MemoryVariable.update]

theorem edge_of_prev_eq_curr (m : MemoryVariable)
    (h : m.prev_state = m.curr_state) :
    m.raising_edge ≠ .ok true ∧ m.falling_edge ≠ .ok true ∧
      (m.single_bit = true →
        m.raising_edge = .ok false ∧ m.falling_edge = .ok false) := by
  cases hb : m.single_bit <;>
    simp [MemoryVariable.raising_edge, MemoryVariable.falling_edge, hb, h]

/-! ### Count / after-event helpers -/

theorem countEv_append (e : Event) (t1 t2 : List Event) :
    countEv e (t1 ++ t2) = countEv e t1 + countEv e t2 := by
  induction t1 with
  | nil => simp [countEv]
  | cons x r ih => simp [countEv, ih]; omega

theorem countEv_eq_zero {e : Event} {t : List Event} (h : e ∉ t) :
    countEv e t = 0 := by
  induction t with
  | nil => rfl
  | cons x r ih =>
    simp only [List.mem_cons, not_or] at h
    have hxe : ¬x = e := fun hc => h.1 hc.symm
    simp [countEv, hxe, ih h.2]

theorem afterEv_append_of_not_mem {e : Event} {t1 : List Event}
    (h : e ∉ t1) (t2 : List Event) :
    afterEv e (t1 ++ t2) = afterEv e t2 := by
  induction t1 with
  | nil => rfl
  | cons x r ih =>
    simp only [List.mem_cons, not_or] at h
    have hxe : ¬x = e := fun hc => h.1 hc.symm
    simp [afterEv, hxe, ih h.2]

/-! ### Event classification -/

theorem mem_handler {e : Event} {cfg : Option Bool} {d : String}
    (h : e ∈ (int_com_error_handler cfg d).1) :
    (∃ m, e = .logError m) ∨ ∃ m, e = .notifySend m := by
  cases cfg with
  | none =>
    simp [int_com_error_handler] at h
    exact Or.inl ⟨_, h⟩
  | some b =>
    cases b with
    | false =>
      simp [int_com_error_handler] at h
      rcases h with h | h
      · exact Or.inl ⟨_, h⟩
      · exact Or.inr ⟨_, h⟩
    | true =>
      simp [int_com_error_handler] at h
      rcases h with h | h
      · exact Or.inl ⟨_, h⟩
      · exact Or.inr ⟨_, h⟩

theorem mem_writeOutputsGo {e : Event} {env : Env} {n : Nat} {reg : Registry}
    {outs : List String} (h : e ∈ (writeOutputsGo env n reg outs).1) :
    (∃ l v, e = .bindingWrite l v) ∨ (∃ m, e = .logError m) ∨
      ∃ m, e = .notifySend m := by
  induction outs with
  | nil => simp [writeOutputsGo] at h
  | cons l rest ih =>
    cases hl : lookupMV reg l with
    | none => simp [writeOutputsGo, hl] at h
    | some mv =>
      cases hw : env.writeRes n l mv.curr_state with
      | none =>
        simp only [writeOutputsGo, hl, hw, List.mem_cons] at h
        rcases h with h | h
        · exact Or.inl ⟨_, _, h⟩
        · exact ih h
      | some d =>
        simp only [writeOutputsGo, hl, hw, List.mem_cons] at h
        rcases h with h | h
        · exact Or.inl ⟨_, _, h⟩
        · rcases mem_handler h with h1 | h1
          · exact Or.inr (Or.inl h1)
          · exact Or.inr (Or.inr h1)

theorem mem_readPassIn {e : Event} {env : Env} {n : Nat} {ls : List String}
    {reg : Registry} (h : e ∈ (readPassIn env n ls reg).2.1) :
    (∃ m, e = .logError m) ∨ ∃ m, e = .notifySend m := by
  induction ls generalizing reg with
  | nil => simp [readPassIn] at h
  | cons l rest ih =>
    cases hl : lookupMV reg l with
    | none => simp [readPassIn, hl] at h
    | some mv =>
      cases hr : env.readIn n l with
      | ok v =>
        simp only [readPassIn, hl, hr] at h
        exact ih h
      | error d =>
        simp only [readPassIn, hl, hr] at h
        exact mem_handler h

theorem mem_readPassStatus {e : Event} {env : Env} {n : Nat} {ls : List String}
    {reg : Registry} (h : e ∈ (readPassStatus env n ls reg).2.1) :
    (∃ m, e = .logError m) ∨ ∃ m, e = .notifySend m := by
  induction ls generalizing reg with
  | nil => simp [readPassStatus] at h
  | cons l rest ih =>
    cases hl : lookupMV reg (l ++ "_status") with
    | none => simp [readPassStatus, hl] at h
    | some mv =>
      cases hr : env.readStatus n l with
      | ok v =>
        simp only [readPassStatus, hl, hr] at h
        exact ih h
      | error d =>
        simp only [readPassStatus, hl, hr] at h
        exact mem_handler h


/-! ### Output-phase lemmas -/

theorem writeOutputsGo_ok {env : Env} {n : Nat} {reg : Registry}
    {outs : List String}
    (hw : ∀ l v, env.writeRes n l v = none)
    (hreg : ∀ l ∈ outs, (lookupMV reg l).isSome) :
    (writeOutputsGo env n reg outs).2 = none := by
  induction outs with
  | nil => rfl
  | cons l rest ih =>
    have hs := hreg l (by simp)
    cases hl : lookupMV reg l with
    | none => rw [hl] at hs; simp at hs
    | some mv =>
      have ih' := ih fun x hx => hreg x (by simp [hx])
      simp [writeOutputsGo, hl, hw, ih']

theorem writeOutputsGo_mem {env : Env} {n : Nat} {reg : Registry}
    {outs : List String} {l : String} {mv : MemoryVariable}
    (hw : ∀ l' v, env.writeRes n l' v = none)
    (hreg : ∀ l' ∈ outs, (lookupMV reg l').isSome)
    (hl : l ∈ outs) (hmv : lookupMV reg l = some mv) :
    Event.bindingWrite l mv.curr_state ∈ (writeOutputsGo env n reg outs).1 := by
  induction outs with
  | nil => simp at hl
  | cons x rest ih =>
    have hsx := hreg x (by simp)
    cases hlx : lookupMV reg x with
    | none => rw [hlx] at hsx; simp at hsx
    | some mvx =>
      simp only [writeOutputsGo, hlx, hw, List.mem_cons]
      rcases List.mem_cons.mp hl with hx | hx
      · subst hx
        rw [hlx] at hmv
        cases hmv
        exact Or.inl rfl
      · exact Or.inr (ih (fun y hy => hreg y (by simp [hy])) hx)

theorem wfOutputs_iff {p : AbstractPLC} :
    wfOutputs p = true ↔ ∀ l ∈ p.outputs, (lookupMV p.output_registry l).isSome := by
  simp [wfOutputs, List.all_eq_true]

theorem write_outputs_ok {env : Env} {n : Nat} {s : AbstractPLC}
    (hw : ∀ l v, env.writeRes n l v = none) (hwf : wfOutputs s = true) :
    (write_outputs env n s).2 = none :=
  writeOutputsGo_ok hw (wfOutputs_iff.mp hwf)

theorem countEv_writePhase_writeOutputs (env : Env) (n : Nat) (s : AbstractPLC) :
    countEv .writePhase (write_outputs env n s).1 = 1 := by
  have hz : Event.writePhase ∉ (writeOutputsGo env n s.output_registry s.outputs).1 := by
    intro hmem
    rcases mem_writeOutputsGo hmem with ⟨l, v, h⟩ | ⟨m, h⟩ | ⟨m, h⟩ <;> cases h
  simp [write_outputs, countEv, countEv_eq_zero hz]

/-! ### `update_registries` / `read_inputs` field lemmas -/

theorem wfOutputs_update_registries (s : AbstractPLC) :
    wfOutputs s.update_registries = wfOutputs s := by
  unfold wfOutputs AbstractPLC.update_registries
  simp only
  congr 1
  funext l
  rw [lookupMV_advanceReg]
  cases lookupMV s.output_registry l <;> rfl

theorem read_inputs_fields (env : Env) (n : Nat) (s : AbstractPLC) :
    (read_inputs env n s).1.outputs = s.outputs ∧
    (read_inputs env n s).1.output_registry = s.output_registry ∧
    (read_inputs env n s).1.inputs = s.inputs ∧
    (read_inputs env n s).1.step_registry = s.step_registry ∧
    (read_inputs env n s).1.exitFlag = s.exitFlag := by
  unfold read_inputs
  cases h1 : readPassIn env n s.inputs s.input_registry with
  | mk reg1 p1 =>
    obtain ⟨evs1, exc1⟩ := p1
    cases exc1 with
    | some e => exact ⟨rfl, rfl, rfl, rfl, rfl⟩
    | none =>
      cases h2 : readPassStatus env n s.outputs reg1 with
      | mk reg2 p2 =>
        obtain ⟨evs2, exc2⟩ := p2
        exact ⟨rfl, rfl, rfl, rfl, rfl⟩

theorem wfOutputs_read_inputs (env : Env) (n : Nat) (s : AbstractPLC) :
    wfOutputs (read_inputs env n s).1 = wfOutputs s := by
  obtain ⟨h1, h2, -⟩ := read_inputs_fields env n s
  unfold wfOutputs
  rw [h1, h2]

/-! ### Claims C5 to C8: the `MemoryVariable` contract -/

/-- Claim C5: `update(v)` sets `prev_state` to the value `curr_state` held
immediately before the call, sets `curr_state` to `v`, and modifies no
other attribute; it is a total function, with no error conditions. -/
theorem C5_update_spec (m : MemoryVariable) (v : Val) :
    (m.update v).prev_state = m.curr_state ∧
    (m.update v).curr_state = v ∧
    (m.update v).single_bit = m.single_bit ∧
    (m.update v).decimal_precision = m.decimal_precision :=
  ⟨rfl, rfl, rfl, rfl⟩

/-- Claim C6: for a single-bit variable, `raising_edge` holds iff the
previous state is falsy and the current state truthy, `falling_edge` holds
iff the previous state is truthy and the current state falsy, and both are
false after an `update` that leaves the value unchanged.  Both queries are
pure functions of the variable (no side effects, by construction). -/
theorem C6_edge_queries (m : MemoryVariable) (h : m.single_bit = true) :
    m.raising_edge = .ok (m.curr_state.truthy && !m.prev_state.truthy) ∧
    m.falling_edge = .ok (m.prev_state.truthy && !m.curr_state.truthy) ∧
    ∀ v, v = m.curr_state →
      (m.update v).raising_edge = .ok false ∧
      (m.update v).falling_edge = .ok false := by
  refine ⟨by simp [MemoryVariable.raising_edge, h],
          by simp [MemoryVariable.falling_edge, h], ?_⟩
  intro v hv
  subst hv
  constructor <;>
    simp [MemoryVariable.update, MemoryVariable.raising_edge,
      MemoryVariable.falling_edge, h]

/-- Witness for C6 at a concrete rising-edge state. -/
theorem C6_edge_queries_witness :
    (MemoryVariable.mk (Val.vInt 1) (Val.vInt 0) true 3).raising_edge = .ok true ∧
    (MemoryVariable.mk (Val.vInt 1) (Val.vInt 0) true 3).falling_edge = .ok false ∧
    ((MemoryVariable.mk (Val.vInt 1) (Val.vInt 0) true 3).update
        (Val.vInt 1)).raising_edge = .ok false := by
  have h := C6_edge_queries (MemoryVariable.mk (Val.vInt 1) (Val.vInt 0) true 3)
    (by decide)
  exact ⟨h.1.trans (by rfl), h.2.1.trans (by rfl),
    (h.2.2 (Val.vInt 1) (by decide)).1⟩

/-- Claim C8: on a variable constructed with `single_bit = false`, each of
`raising_edge`, `falling_edge`, `activate` and `deactivate` fails with the
TypeMismatch error kind (the source's `ValueError`), in every state; a
failing operation returns no updated variable, so the state is unchanged. -/
theorem C8_bit_only_ops (m : MemoryVariable) (h : m.single_bit = false) :
    m.raising_edge = .error (.typeMismatch singleBitMsg) ∧
    m.falling_edge = .error (.typeMismatch singleBitMsg) ∧
    m.activate = .error (.typeMismatch singleBitMsg) ∧
    m.deactivate = .error (.typeMismatch singleBitMsg) := by
  simp [MemoryVariable.raising_edge, MemoryVariable.falling_edge,
    MemoryVariable.activate, MemoryVariable.deactivate, h]

/-- Witness for C8 on a concrete non-single-bit variable. -/
theorem C8_bit_only_ops_witness :
    (MemoryVariable.mk (Val.vFloat 2) (Val.vInt 0) false 3).activate
      = .error (.typeMismatch singleBitMsg) ∧
    (MemoryVariable.mk (Val.vFloat 2) (Val.vInt 0) false 3).raising_edge
      = .error (.typeMismatch singleBitMsg) :=
  ⟨(C8_bit_only_ops (MemoryVariable.mk (Val.vFloat 2) (Val.vInt 0) false 3)
      (by decide)).2.2.1,
   (C8_bit_only_ops (MemoryVariable.mk (Val.vFloat 2) (Val.vInt 0) false 3)
      (by decide)).1⟩

/-- Claim C7: the advance phase (`update_registries`) calls
`update(curr_state)` on every step and every output variable and on no
input variable: the input registry (and everything else) is unchanged,
every step/output entry keeps its current value with `prev_state`
re-stamped to equal it, the phase is idempotent, and after it no edge
query on a step or output variable returns true (for single-bit variables
both edge queries return `ok false`). -/
theorem C7_advance_phase (s : AbstractPLC) :
    s.update_registries.input_registry = s.input_registry ∧
    s.update_registries.inputs = s.inputs ∧
    s.update_registries.outputs = s.outputs ∧
    s.update_registries.exitFlag = s.exitFlag ∧
    (∀ l, lookupMV s.update_registries.step_registry l
        = (lookupMV s.step_registry l).map fun m => m.update m.curr_state) ∧
    (∀ l, lookupMV s.update_registries.output_registry l
        = (lookupMV s.output_registry l).map fun m => m.update m.curr_state) ∧
    s.update_registries.update_registries = s.update_registries ∧
    ∀ l m', (lookupMV s.update_registries.step_registry l = some m' ∨
             lookupMV s.update_registries.output_registry l = some m') →
      m'.raising_edge ≠ .ok true ∧ m'.falling_edge ≠ .ok true ∧
        (m'.single_bit = true →
          m'.raising_edge = .ok false ∧ m'.falling_edge = .ok false) := by
  refine ⟨rfl, rfl, rfl, rfl,
    fun l => lookupMV_advanceReg _ l,
    fun l => lookupMV_advanceReg _ l, ?_, ?_⟩
  · unfold AbstractPLC.update_registries
    simp [advanceReg_advanceReg]
  · intro l m' hm
    have hpc : m'.prev_state = m'.curr_state := by
      rcases hm with hm | hm <;>
        (simp only [AbstractPLC.update_registries] at hm
         rw [lookupMV_advanceReg] at hm
         rcases Option.map_eq_some'.mp hm with ⟨a, -, ha⟩
         rw [← ha]
         rfl)
    exact edge_of_prev_eq_curr m' hpc

/-- Witness for C7 on a PLC holding one step marker and one input. -/
theorem C7_advance_phase_witness :
    (AbstractPLC.mk [] []
        [("i", MemoryVariable.mk (Val.vInt 1) (Val.vInt 0) true 3)] []
        [("st", MemoryVariable.mk (Val.vInt 1) (Val.vInt 0) true 3)]
        false).update_registries.input_registry
      = [("i", MemoryVariable.mk (Val.vInt 1) (Val.vInt 0) true 3)] ∧
    (MemoryVariable.mk (Val.vInt 1) (Val.vInt 1) true 3).raising_edge = .ok false ∧
    (MemoryVariable.mk (Val.vInt 1) (Val.vInt 1) true 3).falling_edge = .ok false := by
  have h := C7_advance_phase (AbstractPLC.mk [] []
    [("i", MemoryVariable.mk (Val.vInt 1) (Val.vInt 0) true 3)] []
    [("st", MemoryVariable.mk (Val.vInt 1) (Val.vInt 0) true 3)] false)
  have he := h.2.2.2.2.2.2.2 "st" (MemoryVariable.mk (Val.vInt 1) (Val.vInt 1) true 3)
    (Or.inl (by decide))
  exact ⟨h.1, (he.2.2 (by decide)).1, (he.2.2 (by decide)).2⟩

/-! ### Event classification for `read_inputs` / `write_outputs` -/

theorem mem_read_inputs {e : Event} {env : Env} {n : Nat} {s : AbstractPLC}
    (h : e ∈ (read_inputs env n s).2.1) :
    e = .readPhase ∨ (∃ m, e = .logError m) ∨ ∃ m, e = .notifySend m := by
  cases h1 : readPassIn env n s.inputs s.input_registry with
  | mk reg1 p1 =>
    obtain ⟨evs1, exc1⟩ := p1
    have hin := @mem_readPassIn e env n s.inputs s.input_registry
    rw [h1] at hin
    cases exc1 with
    | some e1 =>
      simp only [read_inputs, h1, List.mem_cons] at h
      rcases h with h | h
      · exact Or.inl h
      · exact Or.inr (hin h)
    | none =>
      cases h2 : readPassStatus env n s.outputs reg1 with
      | mk reg2 p2 =>
        obtain ⟨evs2, exc2⟩ := p2
        have hst := @mem_readPassStatus e env n s.outputs reg1
        rw [h2] at hst
        simp only [read_inputs, h1, h2, List.mem_cons, List.mem_append] at h
        rcases h with h | h | h
        · exact Or.inl h
        · exact Or.inr (hin h)
        · exact Or.inr (hst h)

theorem not_mem_write_outputs (env : Env) (n : Nat) (s : AbstractPLC) :
    Event.emergencyRoutine ∉ (write_outputs env n s).1 ∧
    Event.exitRoutine ∉ (write_outputs env n s).1 ∧
    Event.advance ∉ (write_outputs env n s).1 ∧
    Event.controlStart ∉ (write_outputs env n s).1 ∧
    Event.readPhase ∉ (write_outputs env n s).1 := by
  refine ⟨?_, ?_, ?_, ?_, ?_⟩ <;>
  · intro hm
    simp only [write_outputs, List.mem_cons] at hm
    rcases hm with hm | hm
    · cases hm
    · rcases mem_writeOutputsGo hm with ⟨l, v, h⟩ | ⟨m, h⟩ | ⟨m, h⟩ <;> cases h

theorem not_mem_read_evs (env : Env) (n : Nat) (s : AbstractPLC) :
    Event.emergencyRoutine ∉ (read_inputs env n s).2.1 ∧
    Event.exitRoutine ∉ (read_inputs env n s).2.1 ∧
    Event.advance ∉ (read_inputs env n s).2.1 ∧
    Event.controlStart ∉ (read_inputs env n s).2.1 ∧
    Event.writePhase ∉ (read_inputs env n s).2.1 := by
  refine ⟨?_, ?_, ?_, ?_, ?_⟩ <;>
  · intro hm
    rcases mem_read_inputs hm with h | ⟨m, h⟩ | ⟨m, h⟩ <;> cases h

/-- Claim C3: when a communication error is handled,
`int_com_error_handler` first logs an error-level message, then sends a
notification iff a notifier is configured, and then terminates the process
via `sys.exit` with the failure message.  The handler never returns
control: when the notify call itself fails, the `sys.exit` statement is
not reached but the notifier's exception propagates instead, and (last
conjunct) the scan cycle in which the handler fired still ends with an
exception escaping `run` — the engine catches only `EmergencyException` —
so process termination is not prevented. -/
theorem C3_com_error_handler (cfg : Option Bool) (d : String) :
    (int_com_error_handler cfg d).1.head?
      = some (.logError ("program interrupted: " ++ d)) ∧
    ((Event.notifySend ("program interrupted: " ++ d)
        ∈ (int_com_error_handler cfg d).1) ↔ cfg ≠ none) ∧
    (cfg ≠ some false →
      (int_com_error_handler cfg d).2
        = .systemExit ("program interrupted: " ++ d)) ∧
    (cfg = some false → (int_com_error_handler cfg d).2 = .notifyFailed) ∧
    ∀ env : Env, ∀ n s e, env.notifyCfg = cfg →
      (read_inputs env n s.update_registries).2.2 = some e →
      (∀ l v, env.writeRes n l v = none) → wfOutputs s = true →
      (cycleBody env n s).2.2 = .raised e := by
  refine ⟨?_, ?_, ?_, ?_, ?_⟩
  · cases cfg with
    | none => rfl
    | some b => cases b <;> rfl
  · cases cfg with
    | none => simp [int_com_error_handler]
    | some b => cases b <;> simp [int_com_error_handler]
  · cases cfg with
    | none => intro; rfl
    | some b =>
      cases b with
      | false => intro hc; exact absurd rfl hc
      | true => intro; rfl
  · cases cfg with
    | none => intro hc; cases hc
    | some b =>
      cases b with
      | false => intro; rfl
      | true => intro hc; cases hc
  · intro env n s e _ hre hw hwf
    cases hri : read_inputs env n s.update_registries with
    | mk s2 p =>
      obtain ⟨rEvs, exc⟩ := p
      rw [hri] at hre
      simp only at hre
      subst hre
      have hwf2 : wfOutputs s2 = true := by
        have h1 := wfOutputs_read_inputs env n s.update_registries
        rw [hri] at h1
        simp only at h1
        rw [h1, wfOutputs_update_registries]
        exact hwf
      have hwo := @write_outputs_ok env n s2 hw hwf2
      simp [cycleBody, hri, hwo]

/-- Witness for C3 with a configured-but-failing notifier and a concrete
read failure. -/
theorem C3_com_error_handler_witness :
    (int_com_error_handler (some false) "x").2 = .notifyFailed ∧
    (cycleBody
        (Env.mk (fun _ _ => .error "x") (fun _ _ => .ok (Val.vInt 0))
          (fun _ _ _ => none) (fun _ p => (p, false)) (fun _ => false)
          (some false))
        0
        (AbstractPLC.mk ["i"] []
          [("i", MemoryVariable.mk (Val.vInt 0) (Val.vInt 0) true 3)]
          [] [] false)).2.2 = .raised .notifyFailed := by
  constructor
  · exact (C3_com_error_handler (some false) "x").2.2.2.1 rfl
  · exact (C3_com_error_handler (some false) "x").2.2.2.2
      _ 0 _ .notifyFailed rfl (by decide) (fun _ _ => rfl) (by decide)

/-! ### Case analysis of one loop-body iteration -/

theorem cycleBody_wf (env : Env) (n : Nat) (s : AbstractPLC)
    (hwf : wfOutputs s = true)
    (hctl : ∀ m p, wfOutputs p = true → wfOutputs (env.control m p).1 = true) :
    wfOutputs (cycleBody env n s).2.1 = true := by
  have hwfr : wfOutputs (read_inputs env n s.update_registries).1 = true := by
    rw [wfOutputs_read_inputs, wfOutputs_update_registries]
    exact hwf
  cases hri : read_inputs env n s.update_registries with
  | mk s2 p =>
    obtain ⟨rEvs, exc⟩ := p
    rw [hri] at hwfr
    simp only at hwfr
    cases exc with
    | some e => simp [cycleBody, hri, hwfr]
    | none =>
      have hc := hctl n s2 hwfr
      cases hcc : env.control n s2 with
      | mk c1 cemg =>
        rw [hcc] at hc
        simp only at hc
        cases cemg <;>
          cases hwo : (write_outputs env n c1).2 <;>
            simp [cycleBody, hri, hcc, hwo, hc]

theorem cycleBody_ret_eq (env : Env) (n : Nat) (s : AbstractPLC)
    (h : (cycleBody env n s).2.2 = .ret) :
    (read_inputs env n s.update_registries).2.2 = none ∧
    (env.control n (read_inputs env n s.update_registries).1).2 = true ∧
    (write_outputs env n
        (env.control n (read_inputs env n s.update_registries).1).1).2 = none ∧
    cycleBody env n s
      = (.advance :: ((read_inputs env n s.update_registries).2.1
          ++ (.controlStart :: .emergencyRoutine ::
            (write_outputs env n
              (env.control n (read_inputs env n s.update_registries).1).1).1)),
         (env.control n (read_inputs env n s.update_registries).1).1, .ret) := by
  cases hri : read_inputs env n s.update_registries with
  | mk s2 p =>
    obtain ⟨rEvs, exc⟩ := p
    cases exc with
    | some e => simp [cycleBody, hri] at h
    | none =>
      cases hcc : env.control n s2 with
      | mk c1 cemg =>
        cases hwo : (write_outputs env n c1).2 with
        | some e2 => cases cemg <;> simp [cycleBody, hri, hcc, hwo] at h
        | none =>
          cases cemg with
          | false => simp [cycleBody, hri, hcc, hwo] at h
          | true =>
            refine ⟨by simp [hri], by simp [hri, hcc], by simp [hri, hcc, hwo], ?_⟩
            simp [cycleBody, hri, hcc, hwo]

theorem cycleBody_cont_eq (env : Env) (n : Nat) (s : AbstractPLC)
    (h : (cycleBody env n s).2.2 = .cont) :
    (read_inputs env n s.update_registries).2.2 = none ∧
    (env.control n (read_inputs env n s.update_registries).1).2 = false ∧
    (write_outputs env n
        (env.control n (read_inputs env n s.update_registries).1).1).2 = none ∧
    cycleBody env n s
      = (.advance :: ((read_inputs env n s.update_registries).2.1
          ++ (.controlStart ::
            (write_outputs env n
              (env.control n (read_inputs env n s.update_registries).1).1).1)),
         (env.control n (read_inputs env n s.update_registries).1).1, .cont) := by
  cases hri : read_inputs env n s.update_registries with
  | mk s2 p =>
    obtain ⟨rEvs, exc⟩ := p
    cases exc with
    | some e => simp [cycleBody, hri] at h
    | none =>
      cases hcc : env.control n s2 with
      | mk c1 cemg =>
        cases hwo : (write_outputs env n c1).2 with
        | some e2 => cases cemg <;> simp [cycleBody, hri, hcc, hwo] at h
        | none =>
          cases cemg with
          | true => simp [cycleBody, hri, hcc, hwo] at h
          | false =>
            refine ⟨by simp [hri], by simp [hri, hcc], by simp [hri, hcc, hwo], ?_⟩
            simp [cycleBody, hri, hcc, hwo]

theorem cycleBody_raised_eq (env : Env) (n : Nat) (s : AbstractPLC) (e : PyExc)
    (hw : ∀ l v, env.writeRes n l v = none) (hwf : wfOutputs s = true)
    (hctl : ∀ m p, wfOutputs p = true → wfOutputs (env.control m p).1 = true)
    (h : (cycleBody env n s).2.2 = .raised e) :
    (read_inputs env n s.update_registries).2.2 = some e ∧
    cycleBody env n s
      = (.advance :: ((read_inputs env n s.update_registries).2.1
          ++ (write_outputs env n (read_inputs env n s.update_registries).1).1),
         (read_inputs env n s.update_registries).1, .raised e) := by
  have hwfr : wfOutputs (read_inputs env n s.update_registries).1 = true := by
    rw [wfOutputs_read_inputs, wfOutputs_update_registries]
    exact hwf
  cases hri : read_inputs env n s.update_registries with
  | mk s2 p =>
    obtain ⟨rEvs, exc⟩ := p
    rw [hri] at hwfr
    simp only at hwfr
    cases exc with
    | some e1 =>
      have hwo := @write_outputs_ok env n s2 hw hwfr
      simp only [cycleBody, hri, hwo] at h
      simp only [BodyRes.raised.injEq] at h
      subst h
      exact ⟨by simp [hri], by simp [cycleBody, hri, hwo]⟩
    | none =>
      have hwfc := hctl n s2 hwfr
      have hwo := @write_outputs_ok env n (env.control n s2).1 hw hwfc
      cases hcc : env.control n s2 with
      | mk c1 cemg =>
        rw [hcc] at hwo
        simp only at hwo
        cases cemg <;> simp [cycleBody, hri, hcc, hwo] at h

theorem wfOutputs_exit_handler (s : AbstractPLC) :
    wfOutputs (exit_handler s) = wfOutputs s := rfl

theorem not_mem_writeOutputsGo (env : Env) (n : Nat) (reg : Registry)
    (outs : List String) :
    Event.emergencyRoutine ∉ (writeOutputsGo env n reg outs).1 ∧
    Event.exitRoutine ∉ (writeOutputsGo env n reg outs).1 ∧
    Event.advance ∉ (writeOutputsGo env n reg outs).1 ∧
    Event.controlStart ∉ (writeOutputsGo env n reg outs).1 ∧
    Event.readPhase ∉ (writeOutputsGo env n reg outs).1 := by
  refine ⟨?_, ?_, ?_, ?_, ?_⟩ <;>
  · intro hm
    rcases mem_writeOutputsGo hm with ⟨l, v, h⟩ | ⟨m, h⟩ | ⟨m, h⟩ <;> cases h

/-- Claim C1: if the control phase raises an `EmergencyException` during an
iteration of `run`, the engine invokes `emergency_routine` exactly once,
the output phase (`write_outputs`) runs exactly once more after that
invocation, `exit_routine` is never invoked, and no further scan cycles
(advance/read/control phases) execute before `run` returns.  Stated for
hardware whose writes succeed and control logic preserving the
registration invariant, so the emergency flush cannot itself abort the
process. -/
theorem C1_emergency_shutdown (env : Env) (fuel n : Nat) (s : AbstractPLC)
    (hw : ∀ m l v, env.writeRes m l v = none)
    (hwf : wfOutputs s = true)
    (hctl : ∀ m p, wfOutputs p = true → wfOutputs (env.control m p).1 = true)
    (he : Event.emergencyRoutine ∈ (runAux env fuel n s).1) :
    countEv .emergencyRoutine (runAux env fuel n s).1 = 1 ∧
    Event.exitRoutine ∉ (runAux env fuel n s).1 ∧
    (∃ r, afterEv .emergencyRoutine (runAux env fuel n s).1 = some r ∧
      countEv .writePhase r = 1 ∧ Event.advance ∉ r ∧
      Event.controlStart ∉ r ∧ Event.readPhase ∉ r) ∧
    (runAux env fuel n s).2.2 = .normal := by
  induction fuel generalizing n s with
  | zero => simp [runAux] at he
  | succ fuel ih =>
    by_cases hex : s.exitFlag = true
    · exfalso
      have hs1 : (runAux env (fuel + 1) n s).1
          = .exitRoutine :: (write_outputs env n s).1 := by
        simp [runAux, hex]
      rw [hs1] at he
      rcases List.mem_cons.mp he with h | h
      · cases h
      · exact (not_mem_write_outputs env n s).1 h
    · have hex' : s.exitFlag = false := by
        revert hex; cases s.exitFlag <;> simp
      cases hcb : cycleBody env n s with
      | mk evs p =>
        obtain ⟨s1, br⟩ := p
        have hrEmg := (not_mem_read_evs env n s.update_registries).1
        have hrExit := (not_mem_read_evs env n s.update_registries).2.1
        cases br with
        | ret =>
          have hsh := cycleBody_ret_eq env n s (by rw [hcb])
          have h3 := hcb.symm.trans hsh.2.2.2
          simp only [Prod.mk.injEq] at h3
          obtain ⟨hevs, hs1eq, -⟩ := h3
          have hwEmg := (not_mem_write_outputs env n
            (env.control n (read_inputs env n s.update_registries).1).1).1
          have hwExit := (not_mem_write_outputs env n
            (env.control n (read_inputs env n s.update_registries).1).1).2.1
          have hwAdv := (not_mem_write_outputs env n
            (env.control n (read_inputs env n s.update_registries).1).1).2.2.1
          have hwCtl := (not_mem_write_outputs env n
            (env.control n (read_inputs env n s.update_registries).1).1).2.2.2.1
          have hwRead := (not_mem_write_outputs env n
            (env.control n (read_inputs env n s.update_registries).1).1).2.2.2.2
          have hrun : runAux env (fuel + 1) n s
              = (evs, if env.stopDuring n then exit_handler s1 else s1,
                 .normal) := by
            simp [runAux, hex', hcb]
          rw [hrun]
          refine ⟨?_, ?_, ?_, rfl⟩
          · rw [hevs]
            have hGoEmg : Event.emergencyRoutine ∉ (writeOutputsGo env n (env.control n (read_inputs env n s.update_registries).1).1.output_registry (env.control n (read_inputs env n s.update_registries).1).1.outputs).1 :=
              (not_mem_writeOutputsGo env n _ _).1
            simp [countEv, countEv_append, countEv_eq_zero hrEmg,
              countEv_eq_zero hGoEmg]
          · rw [hevs]
            intro hmem
            rcases List.mem_cons.mp hmem with h | h
            · cases h
            rcases List.mem_append.mp h with h | h
            · exact hrExit h
            rcases List.mem_cons.mp h with h | h
            · cases h
            rcases List.mem_cons.mp h with h | h
            · cases h
            · exact hwExit h
          · refine ⟨(write_outputs env n
              (env.control n (read_inputs env n s.update_registries).1).1).1,
              ?_, countEv_writePhase_writeOutputs env n _, hwAdv, hwCtl, hwRead⟩
            rw [hevs]
            simp [afterEv, afterEv_append_of_not_mem hrEmg]
        | raised e =>
          exfalso
          have hsh := cycleBody_raised_eq env n s e (hw n) hwf hctl (by rw [hcb])
          have h3 := hcb.symm.trans hsh.2
          simp only [Prod.mk.injEq] at h3
          obtain ⟨hevs, -, -⟩ := h3
          have hwEmg := (not_mem_write_outputs env n
            (read_inputs env n s.update_registries).1).1
          have hrun : (runAux env (fuel + 1) n s).1 = evs := by
            simp [runAux, hex', hcb]
          rw [hrun, hevs] at he
          rcases List.mem_cons.mp he with h | h
          · cases h
          rcases List.mem_append.mp h with h | h
          · exact hrEmg h
          · exact hwEmg h
        | cont =>
          have hsh := cycleBody_cont_eq env n s (by rw [hcb])
          have h3 := hcb.symm.trans hsh.2.2.2
          simp only [Prod.mk.injEq] at h3
          obtain ⟨hevs, hs1eq, -⟩ := h3
          have hwEmg := (not_mem_write_outputs env n
            (env.control n (read_inputs env n s.update_registries).1).1).1
          have hwExit := (not_mem_write_outputs env n
            (env.control n (read_inputs env n s.update_registries).1).1).2.1
          have hEmgEvs : Event.emergencyRoutine ∉ evs := by
            rw [hevs]
            intro hmem
            rcases List.mem_cons.mp hmem with h | h
            · cases h
            rcases List.mem_append.mp h with h | h
            · exact hrEmg h
            rcases List.mem_cons.mp h with h | h
            · cases h
            · exact hwEmg h
          have hExitEvs : Event.exitRoutine ∉ evs := by
            rw [hevs]
            intro hmem
            rcases List.mem_cons.mp hmem with h | h
            · cases h
            rcases List.mem_append.mp h with h | h
            · exact hrExit h
            rcases List.mem_cons.mp h with h | h
            · cases h
            · exact hwExit h
          have hwfs1 : wfOutputs s1 = true := by
            have := cycleBody_wf env n s hwf hctl
            rw [hcb] at this
            exact this
          have hwfs2 : wfOutputs
              (if env.stopDuring n then exit_handler s1 else s1) = true := by
            cases hsd : env.stopDuring n <;>
              simp [hsd, wfOutputs_exit_handler, hwfs1]
          cases hR : runAux env fuel (n + 1)
              (if env.stopDuring n then exit_handler s1 else s1) with
          | mk evs2 q =>
            obtain ⟨s3, o⟩ := q
            have hrun : runAux env (fuel + 1) n s = (evs ++ evs2, s3, o) := by
              simp [runAux, hex', hcb, hR]
            rw [hrun] at he
            have he2 : Event.emergencyRoutine ∈ evs2 := by
              rcases List.mem_append.mp he with h | h
              · exact absurd h hEmgEvs
              · exact h
            have ihh := ih (n + 1)
              (if env.stopDuring n then exit_handler s1 else s1)
              hwfs2 (by rw [hR]; exact he2)
            rw [hR] at ihh
            obtain ⟨ihc, ihx, ⟨r, har, hrw, hra, hrc, hrr⟩, iho⟩ := ihh
            rw [hrun]
            refine ⟨?_, ?_, ⟨r, ?_, hrw, hra, hrc, hrr⟩, iho⟩
            · rw [countEv_append, countEv_eq_zero hEmgEvs, ihc]
            · intro hmem
              rcases List.mem_append.mp hmem with h | h
              · exact hExitEvs h
              · exact ihx h
            · rw [afterEv_append_of_not_mem hEmgEvs, har]

/-- Witness for C1: control raises an emergency in the first cycle of a
PLC with one digital output. -/
theorem C1_emergency_shutdown_witness :
    countEv .emergencyRoutine
      (runAux
        (Env.mk (fun _ _ => .ok (Val.vInt 0)) (fun _ _ => .ok (Val.vInt 0))
          (fun _ _ _ => none) (fun _ p => (p, true)) (fun _ => false) none)
        2 0 (emptyPLC.add_digital_output "valve" (Val.vInt 0)).1).1 = 1 ∧
    Event.exitRoutine ∉
      (runAux
        (Env.mk (fun _ _ => .ok (Val.vInt 0)) (fun _ _ => .ok (Val.vInt 0))
          (fun _ _ _ => none) (fun _ p => (p, true)) (fun _ => false) none)
        2 0 (emptyPLC.add_digital_output "valve" (Val.vInt 0)).1).1 ∧
    (runAux
        (Env.mk (fun _ _ => .ok (Val.vInt 0)) (fun _ _ => .ok (Val.vInt 0))
          (fun _ _ _ => none) (fun _ p => (p, true)) (fun _ => false) none)
        2 0 (emptyPLC.add_digital_output "valve" (Val.vInt 0)).1).2.2
      = .normal := by
  have h := C1_emergency_shutdown
    (Env.mk (fun _ _ => .ok (Val.vInt 0)) (fun _ _ => .ok (Val.vInt 0))
      (fun _ _ _ => none) (fun _ p => (p, true)) (fun _ => false) none)
    2 0 (emptyPLC.add_digital_output "valve" (Val.vInt 0)).1
    (fun _ _ _ => rfl) (by decide) (fun _ _ hp => hp) (by decide)
  exact ⟨h.1, h.2.1, h.2.2.2⟩

theorem cycleBody_of_read_fail (env : Env) (n : Nat) (s : AbstractPLC)
    (e : PyExc)
    (hr : (read_inputs env n s.update_registries).2.2 = some e)
    (hw : ∀ l v, env.writeRes n l v = none) (hwf : wfOutputs s = true) :
    cycleBody env n s
      = (.advance :: ((read_inputs env n s.update_registries).2.1
          ++ (write_outputs env n (read_inputs env n s.update_registries).1).1),
         (read_inputs env n s.update_registries).1, .raised e) := by
  have hwfr : wfOutputs (read_inputs env n s.update_registries).1 = true := by
    rw [wfOutputs_read_inputs, wfOutputs_update_registries]
    exact hwf
  cases hri : read_inputs env n s.update_registries with
  | mk s2 p =>
    obtain ⟨rEvs, exc⟩ := p
    rw [hri] at hr hwfr
    simp only at hr hwfr
    subst hr
    have hwo := @write_outputs_ok env n s2 hw hwfr
    simp [cycleBody, hri, hwo]

/-- Claim C2: in an iteration of `run` whose input phase hits a
communication failure (the escaping exception comes from the error
handler — a `sys.exit` or a notify failure), the control phase is aborted,
yet the output phase still executes; with hardware writes succeeding and
the outputs registered, every bound output's binding write is called with
that output's current registry value; the iteration ends with the
exception propagating out, terminating the process. -/
theorem C2_read_failure_output_flush (env : Env) (n : Nat) (s : AbstractPLC)
    (e : PyExc)
    (hr : (read_inputs env n s.update_registries).2.2 = some e)
    (he : (∃ m, e = .systemExit m) ∨ e = .notifyFailed)
    (hw : ∀ l v, env.writeRes n l v = none)
    (hwf : wfOutputs s = true) :
    Event.controlStart ∉ (cycleBody env n s).1 ∧
    countEv .writePhase (cycleBody env n s).1 = 1 ∧
    (∀ l mv, l ∈ s.outputs → lookupMV s.output_registry l = some mv →
      Event.bindingWrite l mv.curr_state ∈ (cycleBody env n s).1) ∧
    (cycleBody env n s).2.2 = .raised e := by
  have hcb := cycleBody_of_read_fail env n s e hr hw hwf
  have hrCtl := (not_mem_read_evs env n s.update_registries).2.2.2.1
  have hrWp := (not_mem_read_evs env n s.update_registries).2.2.2.2
  have hwCtl := (not_mem_write_outputs env n
    (read_inputs env n s.update_registries).1).2.2.2.1
  have hfo : (read_inputs env n s.update_registries).1.outputs = s.outputs :=
    (read_inputs_fields env n s.update_registries).1
  have hfr : (read_inputs env n s.update_registries).1.output_registry
      = advanceReg s.output_registry :=
    (read_inputs_fields env n s.update_registries).2.1
  have hwfr : wfOutputs (read_inputs env n s.update_registries).1 = true := by
    rw [wfOutputs_read_inputs, wfOutputs_update_registries]
    exact hwf
  refine ⟨?_, ?_, ?_, ?_⟩
  · rw [hcb]
    intro hmem
    rcases List.mem_cons.mp hmem with h | h
    · cases h
    rcases List.mem_append.mp h with h | h
    · exact hrCtl h
    · exact hwCtl h
  · rw [hcb]
    have h1 : countEv .writePhase
        ((read_inputs env n s.update_registries).2.1
          ++ (write_outputs env n (read_inputs env n s.update_registries).1).1)
        = 1 := by
      rw [countEv_append, countEv_eq_zero hrWp,
        countEv_writePhase_writeOutputs]
    simp only [countEv, h1]
    decide
  · intro l mv hl hmv
    rw [hcb]
    have hreg : ∀ l' ∈ (read_inputs env n s.update_registries).1.outputs,
        (lookupMV (read_inputs env n s.update_registries).1.output_registry
          l').isSome := wfOutputs_iff.mp hwfr
    have hl' : l ∈ (read_inputs env n s.update_registries).1.outputs := by
      rw [hfo]; exact hl
    have hmv' : lookupMV
        (read_inputs env n s.update_registries).1.output_registry l
        = some (mv.update mv.curr_state) := by
      rw [hfr, lookupMV_advanceReg, hmv]
      rfl
    have hm := writeOutputsGo_mem hw hreg hl' hmv'
    have hm2 : Event.bindingWrite l mv.curr_state
        ∈ (write_outputs env n (read_inputs env n s.update_registries).1).1 :=
      List.mem_cons_of_mem _ hm
    exact List.mem_cons_of_mem _ (List.mem_append.mpr (Or.inr hm2))
  · rw [hcb]

/-- Witness for C2: an unrelated digital input's read fails while the
output registry holds 1 for output "valve"; the flush still writes 1. -/
theorem C2_read_failure_output_flush_witness :
    Event.bindingWrite "valve" (Val.vInt 1)
      ∈ (cycleBody
          (Env.mk (fun _ _ => .error "boom") (fun _ _ => .ok (Val.vInt 0))
            (fun _ _ _ => none) (fun _ p => (p, false)) (fun _ => false) none)
          0
          ((emptyPLC.add_digital_output "valve" (Val.vInt 1)).1.add_digital_input
            "i" false).1).1 ∧
    Event.controlStart ∉ (cycleBody
          (Env.mk (fun _ _ => .error "boom") (fun _ _ => .ok (Val.vInt 0))
            (fun _ _ _ => none) (fun _ p => (p, false)) (fun _ => false) none)
          0
          ((emptyPLC.add_digital_output "valve" (Val.vInt 1)).1.add_digital_input
            "i" false).1).1 ∧
    (cycleBody
          (Env.mk (fun _ _ => .error "boom") (fun _ _ => .ok (Val.vInt 0))
            (fun _ _ _ => none) (fun _ p => (p, false)) (fun _ => false) none)
          0
          ((emptyPLC.add_digital_output "valve" (Val.vInt 1)).1.add_digital_input
            "i" false).1).2.2
      = .raised (.systemExit "program interrupted: boom") := by
  have h := C2_read_failure_output_flush
    (Env.mk (fun _ _ => .error "boom") (fun _ _ => .ok (Val.vInt 0))
      (fun _ _ _ => none) (fun _ p => (p, false)) (fun _ => false) none)
    0
    ((emptyPLC.add_digital_output "valve" (Val.vInt 1)).1.add_digital_input
      "i" false).1
    (.systemExit "program interrupted: boom")
    (by decide) (Or.inl ⟨_, rfl⟩) (fun _ _ => rfl) (by decide)
  exact ⟨h.2.2.1 "valve" (MemoryVariable.mk (Val.vInt 1) (Val.vInt 1) true 3)
    (by decide) (by decide), h.1, h.2.2.2⟩

theorem countEv_readPhase_read_inputs (env : Env) (n : Nat) (s : AbstractPLC) :
    countEv .readPhase (read_inputs env n s).2.1 = 1 := by
  cases h1 : readPassIn env n s.inputs s.input_registry with
  | mk reg1 p1 =>
    obtain ⟨evs1, exc1⟩ := p1
    have hin : Event.readPhase ∉ evs1 := by
      intro hm
      have h := @mem_readPassIn Event.readPhase env n s.inputs s.input_registry
      rw [h1] at h
      rcases h hm with ⟨m, hx⟩ | ⟨m, hx⟩ <;> cases hx
    cases exc1 with
    | some e =>
      simp only [read_inputs, h1]
      simp [countEv, countEv_eq_zero hin]
    | none =>
      cases h2 : readPassStatus env n s.outputs reg1 with
      | mk reg2 p2 =>
        obtain ⟨evs2, exc2⟩ := p2
        have hst : Event.readPhase ∉ evs2 := by
          intro hm
          have h := @mem_readPassStatus Event.readPhase env n s.outputs reg1
          rw [h2] at h
          rcases h hm with ⟨m, hx⟩ | ⟨m, hx⟩ <;> cases hx
        simp only [read_inputs, h1, h2]
        simp [countEv, countEv_append, countEv_eq_zero hin,
          countEv_eq_zero hst]

theorem countEv_cons_ne {e x : Event} (t : List Event) (h : ¬x = e) :
    countEv e (x :: t) = countEv e t := by
  simp [countEv, h]

/-- Claim C4: if the external stop flag is set during cycle `n` and that
cycle's body completes all four phases normally (no emergency, no
failure), then at the next loop-head check the engine invokes
`exit_routine`, executes the output phase exactly once more after it, and
`run` ends normally with no further scan cycles. -/
theorem C4_graceful_stop (env : Env) (fuel n : Nat) (s : AbstractPLC)
    (hex : s.exitFlag = false)
    (hsd : env.stopDuring n = true)
    (hcb : (cycleBody env n s).2.2 = .cont)
    (hw : ∀ m l v, env.writeRes m l v = none)
    (hwfb : wfOutputs (cycleBody env n s).2.1 = true) :
    (runAux env (fuel + 2) n s).1
      = (cycleBody env n s).1 ++ .exitRoutine ::
          (write_outputs env (n + 1)
            (exit_handler (cycleBody env n s).2.1)).1 ∧
    (runAux env (fuel + 2) n s).2.2 = .normal ∧
    countEv .advance (runAux env (fuel + 2) n s).1 = 1 ∧
    countEv .readPhase (runAux env (fuel + 2) n s).1 = 1 ∧
    countEv .controlStart (runAux env (fuel + 2) n s).1 = 1 ∧
    countEv .writePhase (runAux env (fuel + 2) n s).1 = 2 ∧
    countEv .exitRoutine (runAux env (fuel + 2) n s).1 = 1 ∧
    Event.emergencyRoutine ∉ (runAux env (fuel + 2) n s).1 ∧
    ∃ r, afterEv .exitRoutine (runAux env (fuel + 2) n s).1 = some r ∧
      countEv .writePhase r = 1 ∧ Event.advance ∉ r ∧
      Event.controlStart ∉ r ∧ Event.readPhase ∉ r := by
  have hsh := cycleBody_cont_eq env n s hcb
  have hwfs2 : wfOutputs (exit_handler (cycleBody env n s).2.1) = true := by
    rw [wfOutputs_exit_handler]
    exact hwfb
  have hw2 := @write_outputs_ok env (n + 1)
    (exit_handler (cycleBody env n s).2.1) (hw (n + 1)) hwfs2
  cases hcbe : cycleBody env n s with
  | mk evs p =>
    obtain ⟨s1, br⟩ := p
    have hbr : br = .cont := by
      have := hcb
      rw [hcbe] at this
      exact this
    subst hbr
    rw [hcbe] at hsh hwfs2 hw2
    simp only at hsh hwfs2 hw2
    obtain ⟨-, -, -, hshEq⟩ := hsh
    have h3 : evs = Event.advance ::
        ((read_inputs env n s.update_registries).2.1
          ++ (.controlStart ::
            (write_outputs env n
              (env.control n (read_inputs env n s.update_registries).1).1).1)) := by
      have h4 := hshEq
      simp only [Prod.mk.injEq] at h4
      exact h4.1
    have hef : (exit_handler s1).exitFlag = true := rfl
    have hrun : runAux env (fuel + 2) n s
        = (evs ++ .exitRoutine ::
            (write_outputs env (n + 1) (exit_handler s1)).1,
           exit_handler s1, .normal) := by
      show runAux env (fuel + 1 + 1) n s = _
      simp only [runAux, hex, Bool.false_eq_true, if_false, hcbe, hsd, if_true]
      simp only [hef, if_true, hw2]
    have hrEmg := (not_mem_read_evs env n s.update_registries).1
    have hrAdv := (not_mem_read_evs env n s.update_registries).2.2.1
    have hrCtl := (not_mem_read_evs env n s.update_registries).2.2.2.1
    have hrWp := (not_mem_read_evs env n s.update_registries).2.2.2.2
    have hrExit := (not_mem_read_evs env n s.update_registries).2.1
    have hw1Emg := (not_mem_write_outputs env n
      (env.control n (read_inputs env n s.update_registries).1).1).1
    have hw1Exit := (not_mem_write_outputs env n
      (env.control n (read_inputs env n s.update_registries).1).1).2.1
    have hw1Adv := (not_mem_write_outputs env n
      (env.control n (read_inputs env n s.update_registries).1).1).2.2.1
    have hw1Ctl := (not_mem_write_outputs env n
      (env.control n (read_inputs env n s.update_registries).1).1).2.2.2.1
    have hw1Rp := (not_mem_write_outputs env n
      (env.control n (read_inputs env n s.update_registries).1).1).2.2.2.2
    have hw2Emg := (not_mem_write_outputs env (n + 1) (exit_handler s1)).1
    have hw2Adv := (not_mem_write_outputs env (n + 1) (exit_handler s1)).2.2.1
    have hw2Ctl := (not_mem_write_outputs env (n + 1) (exit_handler s1)).2.2.2.1
    have hw2Rp := (not_mem_write_outputs env (n + 1) (exit_handler s1)).2.2.2.2
    have hExitEvs : Event.exitRoutine ∉ evs := by
      rw [h3]
      intro hmem
      rcases List.mem_cons.mp hmem with h | h
      · cases h
      rcases List.mem_append.mp h with h | h
      · exact hrExit h
      rcases List.mem_cons.mp h with h | h
      · cases h
      · exact hw1Exit h
    rw [hrun]
    refine ⟨rfl, rfl, ?_, ?_, ?_, ?_, ?_, ?_, ?_⟩
    · rw [h3]
      simp [countEv, countEv_append, countEv_eq_zero hrAdv,
        countEv_eq_zero hw1Adv, countEv_eq_zero hw2Adv,
        countEv_eq_zero (not_mem_writeOutputsGo env n _ _).2.2.1,
        countEv_eq_zero (not_mem_writeOutputsGo env (n + 1) _ _).2.2.1]
    · rw [h3]
      have hone := countEv_readPhase_read_inputs env n s.update_registries
      simp [countEv, countEv_append, hone,
        countEv_eq_zero hw1Rp, countEv_eq_zero hw2Rp,
        countEv_eq_zero (not_mem_writeOutputsGo env n _ _).2.2.2.2,
        countEv_eq_zero (not_mem_writeOutputsGo env (n + 1) _ _).2.2.2.2]
    · rw [h3]
      simp [countEv, countEv_append, countEv_eq_zero hrCtl,
        countEv_eq_zero hw1Ctl, countEv_eq_zero hw2Ctl,
        countEv_eq_zero (not_mem_writeOutputsGo env n _ _).2.2.2.1,
        countEv_eq_zero (not_mem_writeOutputsGo env (n + 1) _ _).2.2.2.1]
    · rw [h3]
      have ha := countEv_writePhase_writeOutputs env n
        (env.control n (read_inputs env n s.update_registries).1).1
      have hb := countEv_writePhase_writeOutputs env (n + 1) (exit_handler s1)
      rw [countEv_append]
      have hx : countEv .writePhase (Event.advance ::
          ((read_inputs env n s.update_registries).2.1
            ++ (.controlStart ::
              (write_outputs env n
                (env.control n (read_inputs env n s.update_registries).1).1).1)))
          = 1 := by
        rw [countEv_cons_ne _ (by decide), countEv_append,
          countEv_eq_zero hrWp, countEv_cons_ne _ (by decide), ha]
      have hy : countEv .writePhase (Event.exitRoutine ::
          (write_outputs env (n + 1) (exit_handler s1)).1) = 1 := by
        rw [countEv_cons_ne _ (by decide), hb]
      rw [hx, hy]
    · simp [countEv, countEv_append, countEv_eq_zero hExitEvs,
        countEv_eq_zero (not_mem_writeOutputsGo env (n + 1) _ _).2.1]
    · intro hmem
      rcases List.mem_append.mp hmem with h | h
      · rw [h3] at h
        rcases List.mem_cons.mp h with h | h
        · cases h
        rcases List.mem_append.mp h with h | h
        · exact hrEmg h
        rcases List.mem_cons.mp h with h | h
        · cases h
        · exact hw1Emg h
      · rcases List.mem_cons.mp h with h | h
        · cases h
        · exact hw2Emg h
    · refine ⟨(write_outputs env (n + 1) (exit_handler s1)).1, ?_,
        countEv_writePhase_writeOutputs env (n + 1) (exit_handler s1),
        hw2Adv, hw2Ctl, hw2Rp⟩
      rw [afterEv_append_of_not_mem hExitEvs]
      simp [afterEv]

/-- Witness for C4: a stop signal arrives during cycle 0 of a one-output
PLC whose cycle completes normally. -/
theorem C4_graceful_stop_witness :
    countEv .exitRoutine
      (runAux
        (Env.mk (fun _ _ => .ok (Val.vInt 0)) (fun _ _ => .ok (Val.vInt 0))
          (fun _ _ _ => none) (fun _ p => (p, false)) (fun _ => true) none)
        2 0 (emptyPLC.add_digital_output "valve" (Val.vInt 0)).1).1 = 1 ∧
    countEv .writePhase
      (runAux
        (Env.mk (fun _ _ => .ok (Val.vInt 0)) (fun _ _ => .ok (Val.vInt 0))
          (fun _ _ _ => none) (fun _ p => (p, false)) (fun _ => true) none)
        2 0 (emptyPLC.add_digital_output "valve" (Val.vInt 0)).1).1 = 2 ∧
    (runAux
        (Env.mk (fun _ _ => .ok (Val.vInt 0)) (fun _ _ => .ok (Val.vInt 0))
          (fun _ _ _ => none) (fun _ p => (p, false)) (fun _ => true) none)
        2 0 (emptyPLC.add_digital_output "valve" (Val.vInt 0)).1).2.2
      = .normal := by
  have h := C4_graceful_stop
    (Env.mk (fun _ _ => .ok (Val.vInt 0)) (fun _ _ => .ok (Val.vInt 0))
      (fun _ _ _ => none) (fun _ p => (p, false)) (fun _ => true) none)
    0 0 (emptyPLC.add_digital_output "valve" (Val.vInt 0)).1
    rfl rfl (by decide) (fun _ _ _ => rfl) (by decide)
  exact ⟨h.2.2.2.2.2.2.1, h.2.2.2.2.2.1, h.2.1⟩

/-! ### Successful read passes (for the registration scenarios) -/

theorem isSome_lookup_insertMV {reg : Registry} {l k : String}
    {m : MemoryVariable} (h : (lookupMV reg k).isSome) :
    (lookupMV (insertMV reg l m) k).isSome := by
  rw [lookupMV_insertMV]
  by_cases hlk : l = k <;> simp [hlk, h]

theorem readPassIn_ok {env : Env} {n : Nat} {xs : List String} {reg : Registry}
    (h : ∀ l ∈ xs, (lookupMV reg l).isSome ∧ ∃ v, env.readIn n l = .ok v) :
    ∃ reg', readPassIn env n xs reg = (reg', [], none) ∧
      (∀ k, k ∉ xs → lookupMV reg' k = lookupMV reg k) ∧
      (∀ k, (lookupMV reg k).isSome → (lookupMV reg' k).isSome) := by
  induction xs generalizing reg with
  | nil => exact ⟨reg, rfl, fun _ _ => rfl, fun _ hk => hk⟩
  | cons l rest ih =>
    obtain ⟨hs, v, hv⟩ := h l (by simp)
    cases hl : lookupMV reg l with
    | none => rw [hl] at hs; simp at hs
    | some mv =>
      have hside : ∀ x ∈ rest,
          (lookupMV (insertMV reg l (mv.update v)) x).isSome ∧
            ∃ w, env.readIn n x = .ok w := by
        intro x hx
        obtain ⟨hs2, w, hw2⟩ := h x (List.mem_cons_of_mem _ hx)
        exact ⟨isSome_lookup_insertMV hs2, w, hw2⟩
      obtain ⟨reg', e, hpres, hsome⟩ := ih hside
      refine ⟨reg', ?_, ?_, ?_⟩
      · simp only [readPassIn, hl, hv]
        exact e
      · intro k hk
        have hkr : k ∉ rest := fun hc => hk (List.mem_cons_of_mem _ hc)
        have hkl : ¬l = k := fun hc => hk (by simp [hc])
        rw [hpres k hkr, lookupMV_insertMV]
        simp [hkl]
      · intro k hk
        exact hsome k (isSome_lookup_insertMV hk)

theorem readPassIn_append (env : Env) (n : Nat) (xs ys : List String)
    (reg : Registry) (h : (readPassIn env n xs reg).2.2 = none) :
    readPassIn env n (xs ++ ys) reg
      = readPassIn env n ys (readPassIn env n xs reg).1 := by
  induction xs generalizing reg with
  | nil => rfl
  | cons l rest ih =>
    cases hl : lookupMV reg l with
    | none => simp [readPassIn, hl] at h
    | some mv =>
      cases hv : env.readIn n l with
      | ok v =>
        simp only [readPassIn, hl, hv] at h ⊢
        exact ih (insertMV reg l (mv.update v)) h
      | error d => simp [readPassIn, hl, hv] at h

theorem readPassStatus_ok {env : Env} {n : Nat} {xs : List String}
    {reg : Registry}
    (h : ∀ l ∈ xs, (lookupMV reg (l ++ "_status")).isSome ∧
      ∃ v, env.readStatus n l = .ok v) :
    ∃ reg', readPassStatus env n xs reg = (reg', [], none) ∧
      (∀ k, (∀ l ∈ xs, ¬k = l ++ "_status") →
        lookupMV reg' k = lookupMV reg k) ∧
      (∀ k, (lookupMV reg k).isSome → (lookupMV reg' k).isSome) := by
  induction xs generalizing reg with
  | nil => exact ⟨reg, rfl, fun _ _ => rfl, fun _ hk => hk⟩
  | cons l rest ih =>
    obtain ⟨hs, v, hv⟩ := h l (by simp)
    cases hl : lookupMV reg (l ++ "_status") with
    | none => rw [hl] at hs; simp at hs
    | some mv =>
      have hside : ∀ x ∈ rest,
          (lookupMV (insertMV reg (l ++ "_status") (mv.update v))
            (x ++ "_status")).isSome ∧ ∃ w, env.readStatus n x = .ok w := by
        intro x hx
        obtain ⟨hs2, w, hw2⟩ := h x (List.mem_cons_of_mem _ hx)
        exact ⟨isSome_lookup_insertMV hs2, w, hw2⟩
      obtain ⟨reg', e, hpres, hsome⟩ := ih hside
      refine ⟨reg', ?_, ?_, ?_⟩
      · simp only [readPassStatus, hl, hv]
        exact e
      · intro k hk
        have hkr : ∀ x ∈ rest, ¬k = x ++ "_status" :=
          fun x hx => hk x (List.mem_cons_of_mem _ hx)
        have hkl : ¬(l ++ "_status") = k :=
          fun hc => (hk l (by simp)) hc.symm
        rw [hpres k hkr, lookupMV_insertMV]
        simp [hkl]
      · intro k hk
        exact hsome k (isSome_lookup_insertMV hk)

theorem readPassStatus_append (env : Env) (n : Nat) (xs ys : List String)
    (reg : Registry) (h : (readPassStatus env n xs reg).2.2 = none) :
    readPassStatus env n (xs ++ ys) reg
      = readPassStatus env n ys (readPassStatus env n xs reg).1 := by
  induction xs generalizing reg with
  | nil => rfl
  | cons l rest ih =>
    cases hl : lookupMV reg (l ++ "_status") with
    | none => simp [readPassStatus, hl] at h
    | some mv =>
      cases hv : env.readStatus n l with
      | ok v =>
        simp only [readPassStatus, hl, hv] at h ⊢
        exact ih (insertMV reg (l ++ "_status") (mv.update v)) h
      | error d => simp [readPassStatus, hl, hv] at h

/-- Claim C9: registering a digital input with `NC_contact = false` creates
a single-bit MemoryVariable with `curr_state = prev_state = 0` (with
`NC_contact = true`, `1`); consequently, when the binding's read returns a
truthy value and the cycle's other reads succeed, after the first scan
cycle's input phase the variable's `active` query is true and its
`raising_edge` query is true. -/
theorem C9_digital_input_registration (s0 : AbstractPLC) (label : String)
    (env : Env) (n : Nat) (v : Val)
    (hfresh : label ∉ s0.inputs)
    (hok : ∀ l ∈ s0.inputs,
      (lookupMV s0.input_registry l).isSome ∧ ∃ w, env.readIn n l = .ok w)
    (hst : ∀ l ∈ s0.outputs,
      (lookupMV s0.input_registry (l ++ "_status")).isSome ∧
        ∃ w, env.readStatus n l = .ok w)
    (hnostat : ∀ l ∈ s0.outputs, ¬label = l ++ "_status")
    (hv : env.readIn n label = .ok v)
    (hvt : v.truthy = true) :
    (s0.add_digital_input label false).2
      = MemoryVariable.mk (Val.vInt 0) (Val.vInt 0) true 3 ∧
    (s0.add_digital_input label true).2
      = MemoryVariable.mk (Val.vInt 1) (Val.vInt 1) true 3 ∧
    lookupMV (s0.add_digital_input label false).1.input_registry label
      = some (MemoryVariable.mk (Val.vInt 0) (Val.vInt 0) true 3) ∧
    ∃ mv, lookupMV (read_inputs env n
        (s0.add_digital_input label false).1.update_registries).1.input_registry
        label = some mv ∧
      mv.active = true ∧ mv.raising_edge = .ok true := by
  refine ⟨rfl, rfl, ?_, ?_⟩
  · show lookupMV (insertMV s0.input_registry label
      (MemoryVariable.mk (Val.vInt 0) (Val.vInt 0) true 3)) label = _
    rw [lookupMV_insertMV]
    simp
  · have hinp : (s0.add_digital_input label false).1.update_registries.inputs
        = s0.inputs ++ [label] := by
      show insertKey s0.inputs label = _
      simp [insertKey, hfresh]
    have hok' : ∀ l ∈ s0.inputs,
        (lookupMV (insertMV s0.input_registry label
          (MemoryVariable.mk (Val.vInt 0) (Val.vInt 0) true 3)) l).isSome ∧
          ∃ w, env.readIn n l = .ok w := by
      intro l hl
      obtain ⟨h1, w, h2⟩ := hok l hl
      exact ⟨isSome_lookup_insertMV h1, w, h2⟩
    obtain ⟨reg1, e1, hp1, hs1⟩ := readPassIn_ok hok'
    have hlook1 : lookupMV reg1 label
        = some (MemoryVariable.mk (Val.vInt 0) (Val.vInt 0) true 3) := by
      rw [hp1 label hfresh, lookupMV_insertMV]
      simp
    have e2 : readPassIn env n (s0.inputs ++ [label])
        (insertMV s0.input_registry label
          (MemoryVariable.mk (Val.vInt 0) (Val.vInt 0) true 3))
        = (insertMV reg1 label
            ((MemoryVariable.mk (Val.vInt 0) (Val.vInt 0) true 3).update v),
           [], none) := by
      rw [readPassIn_append env n s0.inputs [label] _ (by rw [e1]), e1]
      simp only [readPassIn, hlook1, hv]
    have hst' : ∀ l ∈ s0.outputs,
        (lookupMV (insertMV reg1 label
          ((MemoryVariable.mk (Val.vInt 0) (Val.vInt 0) true 3).update v))
          (l ++ "_status")).isSome ∧ ∃ w, env.readStatus n l = .ok w := by
      intro l hl
      obtain ⟨h1, w, h2⟩ := hst l hl
      exact ⟨isSome_lookup_insertMV (hs1 _ (isSome_lookup_insertMV h1)), w, h2⟩
    obtain ⟨reg2, e3, hp3, -⟩ := readPassStatus_ok hst'
    have hlook2 : lookupMV reg2 label
        = some ((MemoryVariable.mk (Val.vInt 0) (Val.vInt 0) true 3).update v) := by
      rw [hp3 label hnostat, lookupMV_insertMV]
      simp
    have e2' : readPassIn env n
        (s0.add_digital_input label false).1.update_registries.inputs
        (s0.add_digital_input label false).1.update_registries.input_registry
        = (insertMV reg1 label
            ((MemoryVariable.mk (Val.vInt 0) (Val.vInt 0) true 3).update v),
           [], none) := by
      rw [hinp]
      exact e2
    refine ⟨(MemoryVariable.mk (Val.vInt 0) (Val.vInt 0) true 3).update v,
      ?_, ?_, ?_⟩
    · show lookupMV (read_inputs env n
        (s0.add_digital_input label false).1.update_registries).1.input_registry
        label = _
      unfold read_inputs
      rw [e2']
      simp only
      rw [show (s0.add_digital_input label false).1.update_registries.outputs
        = s0.outputs from rfl, e3]
      exact hlook2
    · simp [MemoryVariable.active, MemoryVariable.update, hvt]
    · have h0 : (Val.vInt 0).truthy = false := rfl
      simp [MemoryVariable.raising_edge, MemoryVariable.update, hvt, h0]

/-- Witness for C9: input "start" on a fresh PLC, binding read `True`. -/
theorem C9_digital_input_registration_witness :
    ∃ mv, lookupMV (read_inputs
        (Env.mk (fun _ _ => .ok (Val.vBool true)) (fun _ _ => .ok (Val.vInt 0))
          (fun _ _ _ => none) (fun _ p => (p, false)) (fun _ => false) none)
        0
        (emptyPLC.add_digital_input "start" false).1.update_registries).1.input_registry "start" = some mv ∧
      mv.active = true ∧ mv.raising_edge = .ok true := by
  have h := C9_digital_input_registration emptyPLC "start"
    (Env.mk (fun _ _ => .ok (Val.vBool true)) (fun _ _ => .ok (Val.vInt 0))
      (fun _ _ _ => none) (fun _ p => (p, false)) (fun _ => false) none)
    0 (Val.vBool true)
    (by simp [emptyPLC]) (by simp [emptyPLC]) (by simp [emptyPLC])
    (by simp [emptyPLC]) rfl rfl
  exact h.2.2.2

/-- Counterexample to C10 as stated: for a PWM output registered with a
truthy `init_value`, the status variable after the first input phase reads
back a truthy value, yet its `raising_edge` query is not true — it fails
with the TypeMismatch error, because `add_pwm_output` creates the status
variable with `single_bit = false`. -/
theorem C10_pwm_status_edge_counterexample :
    ∃ mv, lookupMV (read_inputs
        (Env.mk (fun _ _ => .ok (Val.vInt 0)) (fun _ _ => .ok (Val.vInt 1))
          (fun _ _ _ => none) (fun _ p => (p, false)) (fun _ => false) none)
        0
        (emptyPLC.add_pwm_output "pwm" (Val.vFloat (1/2)) 0).1.update_registries).1.input_registry "pwm_status" = some mv ∧
      mv.curr_state.truthy = true ∧
      mv.raising_edge = .error (.typeMismatch singleBitMsg) ∧
      ¬mv.raising_edge = .ok true := by
  refine ⟨MemoryVariable.mk (Val.vInt 1) (Val.vInt 0) false 0, by decide,
    rfl, rfl, ?_⟩
  simp [MemoryVariable.raising_edge]

/-- Claim C10 (amended): registering a digital output or a PWM output
creates the `<label>_status` read-back variable with
`curr_state = prev_state = 0` regardless of `init_value`, while the
output-side variable starts at `curr_state = prev_state = init_value`.
For a digital output, a first input phase that reads back a truthy status
makes `raising_edge` true on the status variable even though the output
never changed; for a PWM output the status variable is created with
`single_bit = false`, so the `raising_edge` query instead fails with the
TypeMismatch error in every state reachable by `update`. -/
theorem C10_status_registration_amended (s0 : AbstractPLC) (label : String)
    (init : Val) (dp : Nat) (env : Env) (n : Nat) (u : Val)
    (hfin : (label ++ "_status") ∉ s0.inputs)
    (hfout : label ∉ s0.outputs)
    (hok : ∀ l ∈ s0.inputs,
      (lookupMV s0.input_registry l).isSome ∧ ∃ w, env.readIn n l = .ok w)
    (hst : ∀ l ∈ s0.outputs,
      (lookupMV s0.input_registry (l ++ "_status")).isSome ∧
        ∃ w, env.readStatus n l = .ok w)
    (hdisj : ∀ l ∈ s0.outputs, ¬(label ++ "_status") = l ++ "_status")
    (hu : env.readStatus n label = .ok u)
    (hut : u.truthy = true) :
    (s0.add_digital_output label init).2.2
      = MemoryVariable.mk (Val.vInt 0) (Val.vInt 0) true 3 ∧
    (s0.add_digital_output label init).2.1
      = MemoryVariable.mk init init true 3 ∧
    (s0.add_pwm_output label init dp).2.2
      = MemoryVariable.mk (Val.vInt 0) (Val.vInt 0) false dp ∧
    (s0.add_pwm_output label init dp).2.1
      = MemoryVariable.mk init init false 3 ∧
    (∃ mv, lookupMV (read_inputs env n
        (s0.add_digital_output label init).1.update_registries).1.input_registry
        (label ++ "_status") = some mv ∧ mv.raising_edge = .ok true) ∧
    ∀ w, ((s0.add_pwm_output label init dp).2.2.update w).raising_edge
      = .error (.typeMismatch singleBitMsg) := by
  refine ⟨rfl, rfl, rfl, rfl, ?_, fun w => rfl⟩
  have houts : (s0.add_digital_output label init).1.update_registries.outputs
      = s0.outputs ++ [label] := by
    show insertKey s0.outputs label = _
    simp [insertKey, hfout]
  have hok' : ∀ l ∈ s0.inputs,
      (lookupMV (insertMV s0.input_registry (label ++ "_status")
        (MemoryVariable.mk (Val.vInt 0) (Val.vInt 0) true 3)) l).isSome ∧
        ∃ w, env.readIn n l = .ok w := by
    intro l hl
    obtain ⟨h1, w, h2⟩ := hok l hl
    exact ⟨isSome_lookup_insertMV h1, w, h2⟩
  obtain ⟨reg1, e1, hp1, hs1⟩ := readPassIn_ok hok'
  have hlook1 : lookupMV reg1 (label ++ "_status")
      = some (MemoryVariable.mk (Val.vInt 0) (Val.vInt 0) true 3) := by
    rw [hp1 _ hfin, lookupMV_insertMV]
    simp
  have hst' : ∀ l ∈ s0.outputs,
      (lookupMV reg1 (l ++ "_status")).isSome ∧
        ∃ w, env.readStatus n l = .ok w := by
    intro l hl
    obtain ⟨h1, w, h2⟩ := hst l hl
    exact ⟨hs1 _ (isSome_lookup_insertMV h1), w, h2⟩
  obtain ⟨reg2, e3, hp3, -⟩ := readPassStatus_ok hst'
  have hlook2 : lookupMV reg2 (label ++ "_status")
      = some (MemoryVariable.mk (Val.vInt 0) (Val.vInt 0) true 3) := by
    rw [hp3 _ hdisj]
    exact hlook1
  have e4 : readPassStatus env n (s0.outputs ++ [label]) reg1
      = (insertMV reg2 (label ++ "_status")
          ((MemoryVariable.mk (Val.vInt 0) (Val.vInt 0) true 3).update u),
         [], none) := by
    rw [readPassStatus_append env n s0.outputs [label] reg1 (by rw [e3]), e3]
    simp only [readPassStatus, hlook2, hu]
  have e1' : readPassIn env n
      (s0.add_digital_output label init).1.update_registries.inputs
      (s0.add_digital_output label init).1.update_registries.input_registry
      = (reg1, [], none) := e1
  refine ⟨(MemoryVariable.mk (Val.vInt 0) (Val.vInt 0) true 3).update u,
    ?_, ?_⟩
  · show lookupMV (read_inputs env n
      (s0.add_digital_output label init).1.update_registries).1.input_registry
      (label ++ "_status") = _
    unfold read_inputs
    rw [e1']
    simp only
    rw [houts, e4]
    rw [lookupMV_insertMV]
    simp
  · have h0 : (Val.vInt 0).truthy = false := rfl
    simp [MemoryVariable.raising_edge, MemoryVariable.update, hut, h0]

/-- Witness for the amended C10: digital output "valve" with truthy
`init_value`; the first status read-back is truthy and the status
variable's `raising_edge` is true. -/
theorem C10_status_registration_amended_witness :
    ∃ mv, lookupMV (read_inputs
        (Env.mk (fun _ _ => .ok (Val.vInt 0)) (fun _ _ => .ok (Val.vInt 1))
          (fun _ _ _ => none) (fun _ p => (p, false)) (fun _ => false) none)
        0
        (emptyPLC.add_digital_output "valve" (Val.vInt 1)).1.update_registries).1.input_registry ("valve" ++ "_status") = some mv ∧
      mv.raising_edge = .ok true := by
  have h := C10_status_registration_amended emptyPLC "valve" (Val.vInt 1) 0
    (Env.mk (fun _ _ => .ok (Val.vInt 0)) (fun _ _ => .ok (Val.vInt 1))
      (fun _ _ _ => none) (fun _ p => (p, false)) (fun _ => false) none)
    0 (Val.vInt 1)
    (by simp [emptyPLC]) (by simp [emptyPLC]) (by simp [emptyPLC])
    (by simp [emptyPLC]) (by simp [emptyPLC]) rfl rfl
  exact h.2.2.2.2.1
